import Mathlib

/-!
Shallow embedding of the poks Texas Hold'em engine core: the fixed-point
`Currency` type (src/currency/mod.rs), the per-hand `Player`/`Game` state and
its betting state machine (src/game/mod.rs, src/game/action.rs,
src/game/betting.rs, src/game/winner.rs, src/players/seat.rs,
src/players/state.rs), and the `Lobby` wrapper (src/lobby/mod.rs).

Rust `i64` values are embedded as unbounded `Int` (the engine's amounts stay
far from the 64-bit range); Rust `/` and `%` are the truncating `Int.tdiv` /
`Int.tmod`.  Functions that mutate `&mut self` become functions returning the
updated state; a Rust `Err` return or a panic (`todo!`, failed `assert!`,
out-of-bounds index) is the `Option PoksError` component of the result, with
the state component carrying whatever mutations happened before the
error/panic, so that atomicity claims are faithfully representable.
-/

namespace Poks

/-- `Currency` (src/currency/mod.rs): a signed count of minor units (cents)
stored in an `i64`, embedded as an unbounded integer. -/
structure Currency where
  val : Int
deriving DecidableEq

/-- `Currency::new(credits, cents)` packs `credits * 100 + cents`. -/
def Currency.new (credits cents : Int) : Currency :=
  ⟨credits * 100 + cents⟩

/-- `Currency::cents`: `self.0 % 100`, Rust `%` being the truncating
remainder (sign of the dividend). -/
def Currency.cents (c : Currency) : Int :=
  Int.tmod c.val 100

/-- `Currency::credits`: `self.0 / 100`, Rust `/` being truncating division
(rounds toward zero). -/
def Currency.credits (c : Currency) : Int :=
  Int.tdiv c.val 100

/-- `Currency::round_cents` (src/currency/mod.rs 65-72): subtract the cents
part when it is below 50, otherwise top it up to the next whole credit. -/
def Currency.round_cents (c : Currency) : Currency :=
  if c.cents < 50 then ⟨c.val - c.cents⟩ else ⟨c.val + (100 - c.cents)⟩

/-- `Currency::is_negative`. -/
def Currency.is_negative (c : Currency) : Bool :=
  decide (c.val < 0)

instance : Add Currency := ⟨fun a b => ⟨a.val + b.val⟩⟩

instance : Sub Currency := ⟨fun a b => ⟨a.val - b.val⟩⟩

theorem Currency.add_val (a b : Currency) : (a + b).val = a.val + b.val := rfl

theorem Currency.sub_val (a b : Currency) : (a - b).val = a.val - b.val := rfl

/-- Cards are abstract identifiers: the claims only depend on how many cards
move where, never on ranks or suits. -/
abbrev Card := Nat

/-- `Phase` (src/game/phase.rs). -/
inductive Phase where
  | Preflop
  | Flop
  | Turn
  | River
deriving DecidableEq

/-- `PlayerState` (src/players/state.rs). -/
inductive PlayerState where
  | Playing
  | AllIn
  | Folded
  | Paused
  | Lost
deriving DecidableEq

/-- `PlayerState::is_playing` (src/players/state.rs 13-22): `Playing` and
`AllIn` count as still in the hand. -/
def PlayerState.is_playing : PlayerState → Bool
  | .Playing => true
  | .AllIn => true
  | .Folded => false
  | .Paused => false
  | .Lost => false

/-- `GameState` (src/game/state.rs). -/
inductive GameState where
  | RaiseAllowed
  | RaiseDisallowed
  | Pause
  | Finished
deriving DecidableEq

/-- The `PoksError` variants reachable from the embedded operations
(src/errors.rs and the newer constructors used by src/game/action.rs and
src/players/seat.rs).  `panicked` stands for a Rust panic: a `todo!()`, a
failed `assert!`/`expect`, or an out-of-bounds index. -/
inductive PoksError where
  | gameFinished
  | noActivePlayers
  | betAmountMismatch (expected actual : Currency)
  | insufficientFunds (required available : Currency)
  | raiseNotAllowed
  | raiseTooSmall (amount minimum : Currency)
  | tooLittleCurrency
  | panicked
deriving DecidableEq

/-- `Seat` (src/players/seat.rs): the chip balance.  The decision-making
behavior (`Arc<RwLock<BehaveBox>>`) is not embedded: it never touches engine
state (`act` is read-only by contract). -/
structure Seat where
  currency : Currency
deriving DecidableEq

/-- `Seat::withdraw_currency` (src/players/seat.rs 76-83): errors without
mutating when the balance is too small, otherwise debits and returns the
withdrawn amount. -/
def Seat.withdraw_currency (s : Seat) (cu : Currency) : Except PoksError (Seat × Currency) :=
  if s.currency.val < cu.val then .error .tooLittleCurrency
  else .ok ({ s with currency := s.currency - cu }, cu)

/-- `Seat::add_currency`. -/
def Seat.add_currency (s : Seat) (cu : Currency) : Seat :=
  { s with currency := s.currency + cu }

/-- Per-hand `Player` (src/players/mod.rs 29-37). -/
structure Player where
  state : PlayerState
  total_bet : Currency
  round_bet : Currency
  hand : List Card
  seat : Seat
deriving DecidableEq

/-- `Player::new`: fresh player in the default `Playing` state with zero
bets. -/
def Player.new (hand : List Card) (seat : Seat) : Player :=
  { state := .Playing, total_bet := ⟨0⟩, round_bet := ⟨0⟩, hand := hand, seat := seat }

/-- `Player::currency`: delegates to the seat balance. -/
def Player.currency (p : Player) : Currency :=
  p.seat.currency

/-- `Winner` (src/game/winner.rs).  The evaluator's `Eval` and the 7-card
array of `KnownCards` are abstracted to a rank code and card list. -/
inductive Winner where
  | UnknownCards (pot : Currency) (pid : Nat)
  | KnownCards (pot : Currency) (pid : Nat) (rank : Nat) (cards : List Card)
deriving DecidableEq

/-- `Winner::pid`. -/
def Winner.pid : Winner → Nat
  | .UnknownCards _ pid => pid
  | .KnownCards _ pid _ _ => pid

/-- `Action` (src/game/action.rs 8-14). -/
inductive Action where
  | Fold
  | Call (amount : Currency)
  | Raise (amount : Currency)
  | AllIn (amount : Currency)
deriving DecidableEq

/-- A game-log item: optional acting player plus a human-readable line
(src/game/glog.rs).  The embedded log lines are fixed tags; no claim reads
log contents. -/
abbrev GlogItem := Option Nat × String

/-- One hand's state, `Game` (src/game/mod.rs 53-68).  The RNG and its seed
are not carried: wherever the source shuffles, the embedding takes the
already-shuffled deck as an explicit argument. -/
structure Game where
  phase : Phase
  turn : Nat
  dealer : Nat
  players : List Player
  community_cards : List Card
  winner : Option Winner
  deck : List Card
  state : GameState
  small_blind : Currency
  big_blind : Currency
  game_log : List GlogItem
deriving DecidableEq

/-- `Game::pot` (src/game/mod.rs 192-195): derived sum of every player's
`total_bet + round_bet`. -/
def Game.pot (g : Game) : Currency :=
  ⟨(g.players.map (fun p => p.total_bet.val + p.round_bet.val)).sum⟩

/-- `max` of two currencies (derived `Ord` on the inner `i64`). -/
def maxC (a b : Currency) : Currency :=
  if a.val ≤ b.val then b else a

/-- `Game::highest_bet_of_round`: maximum `round_bet`; `none` models the
`unwrap` panic on an empty player list. -/
def Game.highest_bet_of_round (g : Game) : Option Currency :=
  match g.players.map (fun p => p.round_bet) with
  | [] => none
  | x :: xs => some (xs.foldl maxC x)

/-- `Game::is_finished` (src/game/mod.rs 204-206). -/
def Game.is_finished (g : Game) : Bool :=
  g.winner.isSome

/-- `Game::small_blind_position` (src/game/betting.rs 6-13). -/
def Game.small_blind_position (g : Game) : Nat :=
  if g.players.length = 2 then g.dealer
  else (g.dealer + 1) % g.players.length

/-- `Game::big_blind_position` (src/game/betting.rs 15-22). -/
def Game.big_blind_position (g : Game) : Nat :=
  if g.players.length = 2 then (g.dealer + 1) % g.players.length
  else (g.dealer + 2) % g.players.length

/-- `Game::min_raise_amount` (src/game/betting.rs 139-142): the current big
blind. -/
def Game.min_raise_amount (g : Game) : Currency :=
  g.big_blind

/-- `Game::set_phase` (src/game/mod.rs 182-189): folds every `round_bet` into
`total_bet`, zeroes the round bets, sets the phase and logs it. -/
def Game.set_phase (g : Game) (phase : Phase) : Game :=
  { g with
    players := g.players.map (fun p =>
      { p with total_bet := p.total_bet + p.round_bet, round_bet := ⟨0⟩ }),
    phase := phase,
    game_log := g.game_log ++ [(none, "Phase")] }

/-- `Winner::payout` (src/game/winner.rs 19-29): credits the whole pot to the
winning player's seat.  The `assert_ne!(winnings, 0)` fires before the
credit; the second assertion (`old + winnings == currency`) cannot fail over
unbounded integers. -/
def Winner.payout (w : Winner) (g : Game) : Game × Option PoksError :=
  let winnings := g.pot
  match g.players.get? w.pid with
  | none => (g, some .panicked)
  | some p =>
    if winnings.val = 0 then (g, some .panicked)
    else
      ({ g with players := g.players.set w.pid ({ p with seat := p.seat.add_currency winnings }) },
       none)

/-- `Game::set_winner` (src/game/mod.rs 208-212): pays out (a payout failure
is a panic via `expect`), then records the winner and logs it. -/
def Game.set_winner (g : Game) (w : Winner) : Game × Option PoksError :=
  match w.payout g with
  | (g1, some e) => (g1, some e)
  | (g1, none) =>
      ({ g1 with winner := some w, game_log := g1.game_log ++ [(none, "winner")] }, none)

/-- `Game::post_blinds` (src/game/betting.rs 24-39), verbatim: the seat at
the small-blind position is debited `small_blind` with `round_bet` growing by
`small_blind`; the seat at the big-blind position is debited `small_blind`
(line 34 of the source) while its `round_bet` grows by `big_blind`. -/
def Game.post_blinds (g : Game) : Game × Option PoksError :=
  let sb_pos := g.small_blind_position
  let bb_pos := g.big_blind_position
  match g.players.get? sb_pos with
  | none => (g, some .panicked)
  | some sbp =>
    let sbp1 : Player :=
      { sbp with seat := { sbp.seat with currency := sbp.seat.currency - g.small_blind },
                 round_bet := sbp.round_bet + g.small_blind }
    let g1 : Game := { g with players := g.players.set sb_pos sbp1 }
    let g1 : Game := { g1 with game_log := g1.game_log ++ [(some sb_pos, "small blind")] }
    match g1.players.get? bb_pos with
    | none => (g1, some .panicked)
    | some bbp =>
      let bbp1 : Player :=
        { bbp with seat := { bbp.seat with currency := bbp.seat.currency - g.small_blind },
                   round_bet := bbp.round_bet + g.big_blind }
      let g2 : Game := { g1 with players := g1.players.set bb_pos bbp1 }
      let g2 : Game := { g2 with game_log := g2.game_log ++ [(some bb_pos, "big blind")] }
      (g2, none)

/-- `Game::apply_action` (src/game/action.rs 105-164).  Every early `return
Err(...)` happens before any mutation except in the `AllIn` arm, where the
state flip precedes the (there infallible) withdrawal, exactly as in the
source. -/
def Game.apply_action (g : Game) (action : Action) : Game × Option PoksError :=
  match g.highest_bet_of_round with
  | none => (g, some .panicked)
  | some highest_bet =>
    match g.players.get? g.turn with
    | none => (g, some .panicked)
    | some player =>
      let state := g.state
      let min_raise := g.min_raise_amount
      match action with
      | .Fold =>
          ({ g with players := g.players.set g.turn ({ player with state := .Folded }) }, none)
      | .Call amount =>
          let needed := highest_bet - player.round_bet
          if amount ≠ needed then
            (g, some (.betAmountMismatch needed amount))
          else if player.currency.val < amount.val then
            (g, some (.insufficientFunds amount player.currency))
          else
            match player.seat.withdraw_currency amount with
            | .error e => (g, some e)
            | .ok (s1, delta) =>
                let p1 : Player := { player with seat := s1, round_bet := player.round_bet + delta }
                ({ g with players := g.players.set g.turn p1 }, none)
      | .Raise amount =>
          let call_amount := highest_bet - player.round_bet
          if state = .RaiseDisallowed then
            (g, some .raiseNotAllowed)
          else if player.currency.val < amount.val then
            (g, some (.insufficientFunds amount player.currency))
          else if amount.val < min_raise.val then
            (g, some (.raiseTooSmall amount (min_raise + call_amount)))
          else
            match player.seat.withdraw_currency (amount + call_amount) with
            | .error e => (g, some e)
            | .ok (s1, delta) =>
                let p1 : Player := { player with seat := s1, round_bet := player.round_bet + delta }
                ({ g with players := g.players.set g.turn p1 }, none)
      | .AllIn amount =>
          if amount ≠ player.currency then
            (g, some (.betAmountMismatch player.currency amount))
          else
            let p1 := { player with state := PlayerState.AllIn }
            match p1.seat.withdraw_currency amount with
            | .error e => ({ g with players := g.players.set g.turn p1 }, some e)
            | .ok (s1, delta) =>
                let p2 : Player := { p1 with seat := s1, round_bet := p1.round_bet + delta }
                ({ g with players := g.players.set g.turn p2 }, none)

/-- Indices of the players whose state `is_playing`
(src/game/action.rs 43-49). -/
def Game.active_player_ids (g : Game) : List Nat :=
  (g.players.enum.filter (fun ip => ip.2.state.is_playing)).map (fun ip => ip.1)

/-- `Game::process_action` (src/game/action.rs 39-100).  In the source,
`advance_turn` and `is_betting_complete` are `todo!()`, so the skip-turn path
and the continuation after a successfully applied action panic. -/
def Game.process_action (g : Game) (action : Option Action) : Game × Option PoksError :=
  if g.is_finished then (g, some .gameFinished)
  else
    let active := g.active_player_ids
    if active.length ≤ 1 then
      match active.head? with
      | some winner_id => g.set_winner (Winner.UnknownCards g.pot winner_id)
      | none => (g, some .noActivePlayers)
    else
      match g.players.get? g.turn with
      | none => (g, some .panicked)
      | some current =>
        if current.state.is_playing then
          match action with
          | none => (g, none)
          | some a =>
            match g.apply_action a with
            | (g1, some e) => (g1, some e)
            | (g1, none) => (g1, some .panicked)
        else (g, some .panicked)

/-- Dealing loop of `Game::buid_with_seed` (src/game/mod.rs 140-144): two
hole cards per seat, popped from the top of the deck; `none` models the
`unwrap` panic on an exhausted deck. -/
def deal_players : List Seat → List Card → Option (List Player × List Card)
  | [], deck => some ([], deck)
  | s :: seats, c1 :: c2 :: deck =>
      match deal_players seats deck with
      | some (ps, deckRest) => some (Player.new [c1, c2] s :: ps, deckRest)
      | none => none
  | _ :: _, [] => none
  | _ :: _, [_] => none

/-- `Game::buid_with_seed` (src/game/mod.rs 131-165) with the seeded shuffle
abstracted: the already-shuffled deck is a parameter whose head is the top of
the deck.  Blinds are the hard-coded `CU!(0,50)` / `CU!(1)`.  The `assert!`
on the seat count and the too-many-players panic are errors, and the blinds
are posted before the game is returned. -/
def Game.build_with_deck (deck : List Card) (seats : List Seat) (dealer_pos : Nat) :
    Except PoksError Game :=
  if seats.length < 2 then .error .panicked
  else if deck.length / 2 < seats.length then .error .panicked
  else
    match deal_players seats deck with
    | none => .error .panicked
    | some (players, deckRest) =>
      let g : Game :=
        { phase := .Preflop, turn := 0, dealer := dealer_pos, players := players,
          community_cards := [], winner := none, deck := deckRest,
          state := .RaiseAllowed, small_blind := Currency.new 0 50,
          big_blind := Currency.new 1 0, game_log := [] }
      match g.post_blinds with
      | (g1, none) => .ok g1
      | (_, some e) => .error e

/-- `Lobby` (src/lobby/mod.rs 17-23).  Seats are shared cells
(`Arc<RwLock<_>>` behind `Seat::clone`), so the balances seen through
`Lobby::players` and through the current game's players are the same cells;
the embedding keeps both views and updates them in lockstep. -/
structure Lobby where
  players : List Seat
  game : Game
  action_log : List GlogItem
  games_played : Nat
deriving DecidableEq

/-- `Lobby::start_new_game` (src/lobby/mod.rs 65-74): bumps `games_played`,
rotates the dealer, builds a fresh game over the shared seats (whose balances
the build's blind posting just debited). -/
def Lobby.start_new_game (l : Lobby) (deck : List Card) : Except PoksError Lobby :=
  let gp := l.games_played + 1
  let dealer_pos := gp % l.players.length
  match Game.build_with_deck deck l.players dealer_pos with
  | .error e => .error e
  | .ok game =>
      .ok { l with games_played := gp, game := game,
                   players := game.players.map (fun p => p.seat) }

/-- `LobbyBuilder::build` (src/lobby/mod.rs 42-57): builds a dummy game at
dealer 0 — whose blind posting debits the shared seats — and then immediately
replaces it via `start_new_game`.  The two shuffled decks are parameters. -/
def lobby_build (deck1 deck2 : List Card) (seats : List Seat) : Except PoksError Lobby :=
  match Game.build_with_deck deck1 seats 0 with
  | .error e => .error e
  | .ok dummy =>
      let l : Lobby :=
        { players := dummy.players.map (fun p => p.seat), game := dummy,
          action_log := [], games_played := 0 }
      l.start_new_game deck2

/-- `Action::prepare_transaction` (src/game.rs 476-483): the amount a
non-fold action commits, re-debited by `Lobby::tick_game`. -/
def Action.prepare_transaction : Action → Option Currency
  | .Fold => none
  | .Call c => some c
  | .Raise c => some c
  | .AllIn c => some c

/-- Bounded circular-queue push, capacity `ACTION_LOG_SIZE = 2000`
(src/lobby/mod.rs 15): newest first, oldest evicted. -/
def clog_push (log : List GlogItem) (item : GlogItem) : List GlogItem :=
  (item :: log).take 2000

/-- `Lobby::tick_game` (src/lobby/mod.rs 76-95).  The decision returned by
the current seat's behavior is an oracle parameter.  After `process_action`
(whatever its result), `Transaction::finish` debits the acting seat's shared
balance by the action amount — reflected in both the lobby seat list and the
game's player — and the drained game log is pushed into the action log. -/
def Lobby.tick_game (l : Lobby) (decision : Option Action) : Lobby × Option PoksError :=
  if l.game.is_finished then (l, some .gameFinished)
  else
    let pid := l.game.turn
    match l.players.get? pid with
    | none => (l, some .panicked)
    | some _ =>
      let res := l.game.process_action decision
      let g1 := res.1
      let withTransaction : Game × List Seat :=
        match decision.bind Action.prepare_transaction with
        | none => (g1, l.players)
        | some amount =>
            (match g1.players.get? pid with
             | none => g1
             | some p =>
                 let p1 : Player := { p with seat := { p.seat with currency := p.seat.currency - amount } }
                 { g1 with players := g1.players.set pid p1 },
             match l.players.get? pid with
             | none => l.players
             | some s => l.players.set pid ({ s with currency := s.currency - amount }))
      let g2 := withTransaction.1
      let l1 : Lobby :=
        { l with game := { g2 with game_log := [] },
                 players := withTransaction.2,
                 action_log := g2.game_log.foldl clog_push l.action_log }
      (l1, res.2)

/-- Engine-state invariant used by the balance claims: all seat balances and
bets non-negative, and a non-negative big blind.  It holds for every game the
engine builds and is preserved by the operations (proved below). -/
def Game.Inv (g : Game) : Prop :=
  (∀ p ∈ g.players, 0 ≤ p.seat.currency.val ∧ 0 ≤ p.round_bet.val ∧ 0 ≤ p.total_bet.val)
    ∧ 0 ≤ g.big_blind.val

/-- Errors that reject a submitted action during validation (wrong amount,
insufficient funds, raise not allowed / too small), as opposed to
`gameFinished`, `noActivePlayers` and panics. -/
def PoksError.is_rejection : PoksError → Bool
  | .betAmountMismatch _ _ => true
  | .insufficientFunds _ _ => true
  | .raiseNotAllowed => true
  | .raiseTooSmall _ _ => true
  | .tooLittleCurrency => true
  | .gameFinished => false
  | .noActivePlayers => false
  | .panicked => false

/-- Total of a seat list's balances, in cents. -/
def sum_seat_balances (seats : List Seat) : Int :=
  (seats.map (fun s => s.currency.val)).sum

/-- A 52-card deck for concrete runs (card identity is irrelevant). -/
def deck52 : List Card :=
  List.range 52

/-- A seat holding 10,00. -/
def seat10 : Seat :=
  ⟨Currency.new 10 0⟩

def seats2 : List Seat :=
  [seat10, seat10]

def seats3 : List Seat :=
  [seat10, seat10, seat10]

/-- Fallback used only to name the result of a build that is known to
succeed. -/
def empty_game : Game :=
  { phase := .Preflop, turn := 0, dealer := 0, players := [], community_cards := [],
    winner := none, deck := [], state := .RaiseAllowed, small_blind := ⟨0⟩,
    big_blind := ⟨0⟩, game_log := [] }

/-- The game built over two 10,00 seats with dealer 0. -/
def game2p : Game :=
  (Game.build_with_deck deck52 seats2 0).toOption.getD empty_game

/-- The game built over three 10,00 seats with dealer 0. -/
def game3p : Game :=
  (Game.build_with_deck deck52 seats3 0).toOption.getD empty_game

/-- A finished two-player game (winner recorded), for the terminal-state
claims. -/
def finished_game : Game :=
  { phase := .River, turn := 0, dealer := 0,
    players := [Player.new [0, 1] seat10, Player.new [2, 3] seat10],
    community_cards := [4, 5, 6, 7, 8],
    winner := some (Winner.UnknownCards (Currency.new 1 50) 0), deck := [9, 10],
    state := .RaiseAllowed, small_blind := Currency.new 0 50,
    big_blind := Currency.new 1 0, game_log := [] }

def finished_lobby : Lobby :=
  { players := seats2, game := finished_game, action_log := [], games_played := 1 }

/-- The lobby produced by `LobbyBuilder::build` over two 10,00 seats. -/
def lobby2p : Lobby :=
  (lobby_build deck52 deck52 seats2).toOption.getD
    { players := [], game := empty_game, action_log := [], games_played := 0 }

/-- A running game in which everyone but player 1 has folded. -/
def last_player_game : Game :=
  { phase := .Preflop, turn := 0, dealer := 0,
    players :=
      [{ state := .Folded, total_bet := ⟨0⟩, round_bet := ⟨50⟩, hand := [0, 1], seat := seat10 },
       { state := .Playing, total_bet := ⟨0⟩, round_bet := ⟨100⟩, hand := [2, 3], seat := seat10 }],
    community_cards := [], winner := none, deck := [4, 5, 6],
    state := .RaiseAllowed, small_blind := Currency.new 0 50,
    big_blind := Currency.new 1 0, game_log := [] }

/-! Helper lemmas. -/

theorem tmod_negSucc (m : Nat) :
    Int.tmod (Int.negSucc m) 100 = -(((m + 1) % 100 : Nat) : Int) := rfl

theorem tdiv_negSucc (m : Nat) :
    Int.tdiv (Int.negSucc m) 100 = -(((m + 1) / 100 : Nat) : Int) := rfl

/-- What `round_cents` computes, stated against the rounding rule rather than
the code: half-up rounding to a whole credit for non-negative values,
truncation toward zero for negative ones. -/
theorem Currency.round_cents_val (c : Currency) :
    (c.round_cents).val =
      if 0 ≤ c.val then 100 * ((c.val + 50) / 100) else 100 * (Int.tdiv c.val 100) := by
  have key : 100 * Int.tdiv c.val 100 + Int.tmod c.val 100 = c.val := Int.tdiv_add_tmod c.val 100
  unfold Currency.round_cents Currency.cents
  rcases le_or_lt 0 c.val with hpos | hneg
  · have hr0 : 0 ≤ Int.tmod c.val 100 := Int.tmod_nonneg 100 hpos
    have hr1 : Int.tmod c.val 100 < 100 := Int.tmod_lt_of_pos c.val (by norm_num)
    rw [if_pos hpos]
    split
    · dsimp only
      omega
    · dsimp only
      omega
  · cases hcv : c.val with
    | ofNat n =>
      rw [hcv] at hneg
      exact absurd hneg (not_lt.mpr (Int.ofNat_nonneg n))
    | negSucc m =>
      rw [hcv] at key
      rw [tmod_negSucc, tdiv_negSucc] at key
      rw [tmod_negSucc, tdiv_negSucc]
      rw [Int.negSucc_eq] at key ⊢
      have h1 : (m + 1) % 100 < 100 := Nat.mod_lt _ (by norm_num)
      rw [if_neg (show ¬ (0 ≤ -((m : Int) + 1)) by omega)]
      split
      · dsimp only
        omega
      · dsimp only
        omega

/-! Claim theorems. -/

/-- C8 (amended): for every pair `(major, minor)` with `0 ≤ major`,
`0 ≤ minor < 100`, `Currency::new(major, minor).credits()` equals `major` and
`.cents()` equals `minor`.  (For negative `major` with `minor > 0` the
round-trip fails, because Rust `/` and `%` truncate toward zero — see the
counterexample.) -/
theorem c8_currency_roundtrip (major minor : Int)
    (hmaj : 0 ≤ major) (hmin0 : 0 ≤ minor) (hmin1 : minor < 100) :
    (Currency.new major minor).credits = major ∧ (Currency.new major minor).cents = minor := by
  have hv : 0 ≤ major * 100 + minor := by nlinarith
  unfold Currency.new Currency.credits Currency.cents
  dsimp only
  rw [Int.tdiv_eq_ediv hv (by norm_num), Int.tmod_eq_emod hv (by norm_num)]
  omega

theorem c8_witness :
    (Currency.new 12 34).credits = 12 ∧ (Currency.new 12 34).cents = 34 :=
  c8_currency_roundtrip 12 34 (by norm_num) (by norm_num) (by norm_num)

/-- C8 counterexample: `minor = 50` satisfies `0 ≤ minor < 100`, yet
`Currency::new(-1, 50)` packs `-50`, whose truncating split gives
`credits = 0` and `cents = -50`, not `(-1, 50)`. -/
theorem c8_counterexample :
    ((0 : Int) ≤ 50 ∧ (50 : Int) < 100) ∧
    ¬ ((Currency.new (-1) 50).credits = -1 ∧ (Currency.new (-1) 50).cents = 50) := by
  decide

/-- C9 (amended): `round_cents()` always returns a whole-credit value; for a
non-negative amount it rounds to the nearest credit with the exact 50-cent
boundary rounded UP to the next credit (half-up, not banker-style); a
negative amount is truncated toward zero. -/
theorem c9_round_cents_half_up (c : Currency) :
    (c.round_cents).cents = 0 ∧
    (c.round_cents).val =
      if 0 ≤ c.val then 100 * ((c.val + 50) / 100) else 100 * (Int.tdiv c.val 100) := by
  refine ⟨?_, Currency.round_cents_val c⟩
  rw [Currency.cents, Currency.round_cents_val c]
  split
  · exact Int.mul_tmod_right 100 _
  · exact Int.mul_tmod_right 100 _

/-- C9 counterexample: at 2,50 the code rounds up to 3,00; banker-style
(round-half-to-even) rounding would give the even credit 2,00. -/
theorem c9_counterexample :
    (Currency.new 2 50).round_cents = Currency.new 3 0 ∧
    (Currency.new 2 50).round_cents ≠ Currency.new 2 0 := by
  decide

/-- C1: blind posting evaluated on a freshly built two-seat game (dealer 0,
balances 10,00, blinds 0,50/1,00).  The small-blind seat (the dealer) is
debited the small blind into its `round_bet` as the claim states, but the
big-blind seat's balance drops by only 0,50 — the small blind — while its
`round_bet` grows by the big blind 1,00 (betting.rs line 34 debits
`small_blind`).  The claim (and the code's own log line and the pot) require
a 1,00 debit, so the balance 9,50 differs from the required 9,00. -/
theorem c1_big_blind_debited_small_blind :
    (Game.build_with_deck deck52 seats2 0).toOption = some game2p ∧
    game2p.small_blind = Currency.new 0 50 ∧
    game2p.big_blind = Currency.new 1 0 ∧
    game2p.small_blind_position = 0 ∧
    game2p.big_blind_position = 1 ∧
    game2p.players.map (fun p => (p.seat.currency, p.round_bet)) =
      [(Currency.new 9 50, Currency.new 0 50), (Currency.new 9 50, Currency.new 1 0)] ∧
    Currency.new 9 50 ≠ Currency.new 10 0 - Currency.new 1 0 := by
  decide

/-- C3: a raise strictly below `minimum_raise + required_call` that the claim
says must be rejected is instead accepted and committed.  In the three-seat
game after blinds, player 0 has `round_bet = 0`, the highest round bet is the
big blind 1,00, so `required_call = 1,00` and `minimum_raise = 1,00`;
`Raise(1,00)` satisfies `1,00 < 1,00 + 1,00`, yet `apply_action` returns no
error and withdraws `amount + call = 2,00` into `round_bet` — the guard at
action.rs line 137 compares `amount` against `min_raise` alone, although the
error it would report names `min_raise + call_amount` as the minimum. -/
theorem c3_raise_below_call_plus_min_accepted :
    game3p.state = GameState.RaiseAllowed ∧
    game3p.turn = 0 ∧
    game3p.min_raise_amount = Currency.new 1 0 ∧
    game3p.highest_bet_of_round = some (Currency.new 1 0) ∧
    game3p.players.map (fun p => (p.seat.currency, p.round_bet)) =
      [(Currency.new 10 0, Currency.new 0 0), (Currency.new 9 50, Currency.new 0 50),
       (Currency.new 9 50, Currency.new 1 0)] ∧
    (Currency.new 1 0).val < (Currency.new 1 0).val + (Currency.new 1 0).val ∧
    (game3p.apply_action (Action.Raise (Currency.new 1 0))).2 = none ∧
    (game3p.apply_action (Action.Raise (Currency.new 1 0))).1.players.map
        (fun p => (p.seat.currency, p.round_bet)) =
      [(Currency.new 8 0, Currency.new 2 0), (Currency.new 9 50, Currency.new 0 50),
       (Currency.new 9 50, Currency.new 1 0)] := by
  decide

/-- C5: `set_phase` sets the phase, folds every round bet into the total bet
and zeroes it, appends one log line, preserves the derived pot, and leaves
every other game field (deck, community cards, turn, dealer, winner, blinds,
betting state) unchanged. -/
theorem c5_set_phase_frame (g : Game) (ph : Phase) :
    (g.set_phase ph).phase = ph ∧
    (g.set_phase ph).players = g.players.map (fun p =>
      { p with total_bet := p.total_bet + p.round_bet, round_bet := (⟨0⟩ : Currency) }) ∧
    (∀ p ∈ (g.set_phase ph).players, p.round_bet = (⟨0⟩ : Currency)) ∧
    (g.set_phase ph).pot = g.pot ∧
    (g.set_phase ph).deck = g.deck ∧
    (g.set_phase ph).community_cards = g.community_cards ∧
    (g.set_phase ph).turn = g.turn ∧
    (g.set_phase ph).dealer = g.dealer ∧
    (g.set_phase ph).winner = g.winner ∧
    (g.set_phase ph).small_blind = g.small_blind ∧
    (g.set_phase ph).big_blind = g.big_blind ∧
    (g.set_phase ph).state = g.state ∧
    (g.set_phase ph).game_log = g.game_log ++ [(none, "Phase")] := by
  refine ⟨rfl, rfl, ?_, ?_, rfl, rfl, rfl, rfl, rfl, rfl, rfl, rfl, rfl⟩
  · intro p hp
    simp only [Game.set_phase, List.mem_map] at hp
    obtain ⟨q, _, rfl⟩ := hp
    rfl
  · unfold Game.pot Game.set_phase
    dsimp only
    rw [List.map_map]
    congr 1
    congr 1
    apply List.map_congr_left
    intro p _
    simp [Currency.add_val]

/-- C6: once a winner is recorded (`is_finished`), both `process_action` and
`Lobby::tick_game` reject with `GameFinished` before touching anything, so
the whole state — players, bets, deck, community cards, winner, log — is
returned unchanged, and the game stays finished for every subsequent call. -/
theorem c6_finished_terminal (g : Game) (act : Option Action) (l : Lobby) (d : Option Action) :
    (g.is_finished = true → g.process_action act = (g, some PoksError.gameFinished)) ∧
    (l.game.is_finished = true → l.tick_game d = (l, some PoksError.gameFinished)) := by
  constructor
  · intro h
    unfold Game.process_action
    rw [if_pos h]
  · intro h
    unfold Lobby.tick_game
    rw [if_pos h]

theorem c6_witness :
    finished_game.process_action none = (finished_game, some PoksError.gameFinished) ∧
    finished_lobby.tick_game none = (finished_lobby, some PoksError.gameFinished) :=
  ⟨(c6_finished_terminal finished_game none finished_lobby none).1 (by decide),
   (c6_finished_terminal finished_game none finished_lobby none).2 (by decide)⟩

/-- Membership in `active_player_ids` exposes the underlying player. -/
theorem mem_active_player_ids (g : Game) (i : Nat) (h : i ∈ g.active_player_ids) :
    ∃ p, g.players.get? i = some p ∧ p.state.is_playing = true := by
  unfold Game.active_player_ids at h
  simp only [List.mem_map, List.mem_filter] at h
  obtain ⟨ip, ⟨henum, hplay⟩, hfst⟩ := h
  refine ⟨ip.2, ?_, hplay⟩
  rw [← hfst, List.get?_eq_getElem?]
  exact List.mem_enum_iff_getElem?.mp henum

/-- What `set_winner` does on an `UnknownCards` winner whose player exists
and whose pot is non-zero. -/
theorem set_winner_unknown_spec (g : Game) (i : Nat) (p : Player)
    (hp : g.players.get? i = some p) (hpot : g.pot.val ≠ 0) :
    g.set_winner (Winner.UnknownCards g.pot i) =
      ({ g with players := g.players.set i ({ p with seat := p.seat.add_currency g.pot }),
                winner := some (Winner.UnknownCards g.pot i),
                game_log := g.game_log ++ [(none, "winner")] }, none) := by
  unfold Game.set_winner Winner.payout
  dsimp only [Winner.pid]
  rw [hp]
  dsimp only
  rw [if_neg hpot]

/-- Either `set_winner` succeeds, or it panicked leaving the game
untouched. -/
theorem set_winner_cases (g : Game) (w : Winner) :
    (g.set_winner w).2 = none ∨ g.set_winner w = (g, some PoksError.panicked) := by
  unfold Game.set_winner Winner.payout
  cases hp : g.players.get? w.pid with
  | none => right; rfl
  | some p =>
    dsimp only
    by_cases h0 : g.pot.val = 0
    · rw [if_pos h0]
      right
      rfl
    · rw [if_neg h0]
      left
      rfl

/-- C7: whenever a running game (no winner yet, non-empty pot) has at most
one active player (state `Playing` or `AllIn`), `process_action` either
declares that single player the `UnknownCards` winner of the current pot —
touching neither the deck nor the community cards, hence no deal and no
evaluator — or, with no active player at all, fails with the internal
`NoActivePlayers` error. -/
theorem c7_last_player_standing (g : Game) (act : Option Action)
    (hw : g.winner = none) (hpot : g.pot.val ≠ 0) :
    (g.active_player_ids = [] → g.process_action act = (g, some PoksError.noActivePlayers)) ∧
    (∀ i, g.active_player_ids = [i] →
       (g.process_action act).2 = none ∧
       (g.process_action act).1.winner = some (Winner.UnknownCards g.pot i) ∧
       (g.process_action act).1.deck = g.deck ∧
       (g.process_action act).1.community_cards = g.community_cards) := by
  have hfin : g.is_finished = false := by
    unfold Game.is_finished
    rw [hw]
    rfl
  constructor
  · intro hact
    unfold Game.process_action
    rw [hfin]
    simp [hact]
  · intro i hact
    obtain ⟨p, hp, _⟩ := mem_active_player_ids g i (by rw [hact]; exact List.mem_singleton.mpr rfl)
    have hsw := set_winner_unknown_spec g i p hp hpot
    unfold Game.process_action
    rw [hfin]
    simp only [Bool.false_eq_true, if_false, hact, List.length_cons, List.length_nil,
      List.head?_cons, Nat.le_refl, if_pos, zero_add, le_refl, if_true]
    rw [hsw]
    exact ⟨rfl, rfl, rfl, rfl⟩

theorem c7_witness :
    last_player_game.active_player_ids = [1] ∧
    last_player_game.winner = none ∧
    last_player_game.pot.val ≠ 0 ∧
    ((last_player_game.process_action none).2 = none ∧
     (last_player_game.process_action none).1.winner =
       some (Winner.UnknownCards last_player_game.pot 1) ∧
     (last_player_game.process_action none).1.deck = last_player_game.deck ∧
     (last_player_game.process_action none).1.community_cards =
       last_player_game.community_cards) :=
  ⟨by decide, by decide, by decide,
   (c7_last_player_standing last_player_game none (by decide) (by decide)).2 1 (by decide)⟩

/-- An erroring `apply_action` on a `Call` or `Raise` leaves the game
exactly as it was: every rejecting branch returns before any mutation, and a
failing withdrawal checks the balance before debiting. -/
theorem apply_action_call_raise_error_frame (g : Game) (a : Action) (g1 : Game) (e : PoksError)
    (hCR : (∃ c, a = Action.Call c) ∨ (∃ c, a = Action.Raise c))
    (h : g.apply_action a = (g1, some e)) : g1 = g := by
  rcases hCR with ⟨c, rfl⟩ | ⟨c, rfl⟩ <;>
  · unfold Game.apply_action at h
    dsimp only at h
    repeat' split at h
    all_goals
      first
      | (injection h with h1 h2
         exact h1.symm)
      | (injection h with h1 h2
         exact Option.noConfusion h2)

/-- C4: whenever `process_action` rejects a submitted `Call` or `Raise` with
a validation error (amount mismatch, insufficient funds, raise not allowed,
raise too small, or the withdrawal guard), the returned state — every
player's balance, `round_bet`, `total_bet` and state, and every other game
field — is exactly the input state. -/
theorem c4_invalid_call_raise_atomic (g : Game) (a : Action) (g1 : Game) (e : PoksError)
    (hCR : (∃ c, a = Action.Call c) ∨ (∃ c, a = Action.Raise c))
    (hrun : g.process_action (some a) = (g1, some e))
    (hrej : e.is_rejection = true) : g1 = g := by
  unfold Game.process_action at hrun
  dsimp only at hrun
  split at hrun
  · injection hrun with h1 h2
    exact h1.symm
  · split at hrun
    · split at hrun
      · rcases set_winner_cases g (Winner.UnknownCards g.pot _) with hc | hc
        · rw [hrun] at hc
          exact Option.noConfusion hc
        · rw [hrun] at hc
          have h1 : g1 = g := congrArg Prod.fst hc
          have h2 : e = PoksError.panicked := Option.some.inj (congrArg Prod.snd hc)
          rw [h2] at hrej
          exact absurd hrej (by decide)
      · injection hrun with h1 h2
        exact h1.symm
    · split at hrun
      · injection hrun with h1 h2
        exact h1.symm
      · split at hrun
        · split at hrun
          · rename_i heq
            injection hrun with h1 h2
            rw [← h1]
            exact apply_action_call_raise_error_frame g a _ _ hCR heq
          · rename_i heq
            injection hrun with h1 h2
            injection h2 with h2
            rw [← h2] at hrej
            exact absurd hrej (by decide)
        · injection hrun with h1 h2
          exact h1.symm

theorem c4_witness :
    (game2p.process_action (some (Action.Call (Currency.new 9 99)))).2 =
      some (PoksError.betAmountMismatch (Currency.new 0 50) (Currency.new 9 99)) ∧
    (game2p.process_action (some (Action.Call (Currency.new 9 99)))).1 = game2p := by
  constructor
  · decide
  · exact c4_invalid_call_raise_atomic game2p (Action.Call (Currency.new 9 99))
      ((game2p.process_action (some (Action.Call (Currency.new 9 99)))).1)
      (PoksError.betAmountMismatch (Currency.new 0 50) (Currency.new 9 99))
      (Or.inl ⟨_, rfl⟩) (by decide) (by decide)

theorem foldl_maxC_bound (xs : List Currency) (x : Currency) :
    x.val ≤ (xs.foldl maxC x).val ∧ ∀ y ∈ xs, y.val ≤ (xs.foldl maxC x).val := by
  induction xs generalizing x with
  | nil => exact ⟨le_refl _, by simp⟩
  | cons a as ih =>
    have hx : x.val ≤ (maxC x a).val := by
      unfold maxC
      split <;> omega
    have ha : a.val ≤ (maxC x a).val := by
      unfold maxC
      split <;> omega
    refine ⟨le_trans hx (ih (maxC x a)).1, ?_⟩
    intro y hy
    rcases List.mem_cons.mp hy with heq | hy2
    · rw [heq]
      exact le_trans ha (ih (maxC x a)).1
    · exact (ih (maxC x a)).2 y hy2

/-- Every round bet is bounded by `highest_bet_of_round`. -/
theorem highest_bet_spec (g : Game) (hb : Currency)
    (h : g.highest_bet_of_round = some hb) :
    ∀ p ∈ g.players, p.round_bet.val ≤ hb.val := by
  unfold Game.highest_bet_of_round at h
  intro p hp
  have hmem : p.round_bet ∈ g.players.map (fun q => q.round_bet) :=
    List.mem_map_of_mem _ hp
  split at h
  · exact Option.noConfusion h
  · rename_i x xs hxs
    injection h with h
    rw [hxs] at hmem
    rw [← h]
    rcases List.mem_cons.mp hmem with heq | hmem2
    · rw [heq]
      exact (foldl_maxC_bound xs x).1
    · exact (foldl_maxC_bound xs x).2 _ hmem2

theorem mem_of_get?_eq {α : Type} (l : List α) (i : Nat) (p : α) (h : l.get? i = some p) :
    p ∈ l := by
  rw [List.get?_eq_getElem?] at h
  obtain ⟨hlt, heq⟩ := List.getElem?_eq_some.mp h
  rw [← heq]
  exact List.getElem_mem hlt

theorem forall_mem_set {α : Type} {P : α → Prop} (l : List α) (i : Nat) (q : α)
    (hl : ∀ p ∈ l, P p) (hq : P q) : ∀ p ∈ l.set i q, P p := by
  intro p hp
  rcases List.mem_or_eq_of_mem_set hp with hmem | rfl
  · exact hl p hmem
  · exact hq

/-- A successful withdrawal debits exactly the requested amount, which the
balance could cover. -/
theorem withdraw_currency_ok (s : Seat) (cu : Currency) (s1 : Seat) (d : Currency)
    (h : s.withdraw_currency cu = .ok (s1, d)) :
    s1.currency.val = s.currency.val - cu.val ∧ d = cu ∧ cu.val ≤ s.currency.val := by
  unfold Seat.withdraw_currency at h
  split at h
  · exact Except.noConfusion h
  · rename_i hns
    injection h with h
    have e1 : s1 = { s with currency := s.currency - cu } := (congrArg Prod.fst h).symm
    have e2 : d = cu := (congrArg Prod.snd h).symm
    subst e1
    exact ⟨Currency.sub_val _ _, e2, by omega⟩

theorem pot_nonneg (g : Game)
    (h : ∀ p ∈ g.players, 0 ≤ p.seat.currency.val ∧ 0 ≤ p.round_bet.val ∧ 0 ≤ p.total_bet.val) :
    0 ≤ g.pot.val := by
  unfold Game.pot
  dsimp only
  apply List.sum_nonneg
  intro x hx
  obtain ⟨p, hp, rfl⟩ := List.mem_map.mp hx
  have := h p hp
  omega

/-- `apply_action` preserves the engine invariant, whether it succeeds or
rejects: withdrawals are guarded, and every committed round bet stays
non-negative. -/
theorem apply_action_inv (g : Game) (a : Action) (h : g.Inv) : (g.apply_action a).1.Inv := by
  obtain ⟨hball, hbb⟩ := h
  unfold Game.apply_action
  cases hhb : g.highest_bet_of_round with
  | none => exact ⟨hball, hbb⟩
  | some hb =>
    cases hp : g.players.get? g.turn with
    | none => exact ⟨hball, hbb⟩
    | some player =>
      have hpm : player ∈ g.players := mem_of_get?_eq _ _ _ hp
      have hple : player.round_bet.val ≤ hb.val := highest_bet_spec g hb hhb player hpm
      have hpp := hball player hpm
      cases a with
      | Fold =>
        dsimp only
        exact ⟨forall_mem_set _ _ _ hball ⟨hpp.1, hpp.2.1, hpp.2.2⟩, hbb⟩
      | Call amount =>
        dsimp only
        split
        · exact ⟨hball, hbb⟩
        · rename_i hamt
          split
          · exact ⟨hball, hbb⟩
          · rename_i hfund
            cases hw : player.seat.withdraw_currency amount with
            | error e => exact ⟨hball, hbb⟩
            | ok sd =>
              obtain ⟨s1, d⟩ := sd
              obtain ⟨e1, e2, e3⟩ := withdraw_currency_ok _ _ _ _ hw
              have hamt2 : amount = hb - player.round_bet := not_ne_iff.mp hamt
              refine ⟨forall_mem_set _ _ _ hball ⟨?_, ?_, hpp.2.2⟩, hbb⟩
              · show 0 ≤ s1.currency.val
                omega
              · show 0 ≤ (player.round_bet + d).val
                rw [Currency.add_val, e2, hamt2, Currency.sub_val]
                omega
      | Raise amount =>
        dsimp only
        split
        · exact ⟨hball, hbb⟩
        · rename_i hallowed
          split
          · exact ⟨hball, hbb⟩
          · rename_i hfund
            split
            · exact ⟨hball, hbb⟩
            · rename_i hmin
              cases hw : player.seat.withdraw_currency (amount + (hb - player.round_bet)) with
              | error e => exact ⟨hball, hbb⟩
              | ok sd =>
                obtain ⟨s1, d⟩ := sd
                obtain ⟨e1, e2, e3⟩ := withdraw_currency_ok _ _ _ _ hw
                refine ⟨forall_mem_set _ _ _ hball ⟨?_, ?_, hpp.2.2⟩, hbb⟩
                · show 0 ≤ s1.currency.val
                  omega
                · show 0 ≤ (player.round_bet + d).val
                  rw [Currency.add_val, e2, Currency.add_val, Currency.sub_val]
                  unfold Game.min_raise_amount at hmin
                  omega
      | AllIn amount =>
        dsimp only
        split
        · exact ⟨hball, hbb⟩
        · rename_i hamt
          have hamt2 : amount = player.currency := not_ne_iff.mp hamt
          cases hw : Seat.withdraw_currency player.seat amount with
          | error e =>
            exact ⟨forall_mem_set _ _ _ hball ⟨hpp.1, hpp.2.1, hpp.2.2⟩, hbb⟩
          | ok sd =>
            obtain ⟨s1, d⟩ := sd
            obtain ⟨e1, e2, e3⟩ := withdraw_currency_ok _ _ _ _ hw
            refine ⟨forall_mem_set _ _ _ hball ⟨?_, ?_, hpp.2.2⟩, hbb⟩
            · show 0 ≤ s1.currency.val
              omega
            · show 0 ≤ (player.round_bet + d).val
              rw [Currency.add_val, e2, hamt2]
              unfold Player.currency at *
              omega

/-- `set_winner` preserves the engine invariant: the payout only credits the
(non-negative) pot. -/
theorem set_winner_inv (g : Game) (w : Winner) (h : g.Inv) : (g.set_winner w).1.Inv := by
  obtain ⟨hball, hbb⟩ := h
  unfold Game.set_winner Winner.payout
  cases hp : g.players.get? w.pid with
  | none => exact ⟨hball, hbb⟩
  | some p =>
    dsimp only
    by_cases h0 : g.pot.val = 0
    · rw [if_pos h0]
      exact ⟨hball, hbb⟩
    · rw [if_neg h0]
      have hpm := mem_of_get?_eq _ _ _ hp
      have hpp := hball p hpm
      have hpot := pot_nonneg g hball
      refine ⟨forall_mem_set _ _ _ hball ⟨?_, hpp.2.1, hpp.2.2⟩, hbb⟩
      show 0 ≤ (p.seat.add_currency g.pot).currency.val
      unfold Seat.add_currency
      dsimp only
      rw [Currency.add_val]
      omega

/-- `process_action` preserves the engine invariant on every path. -/
theorem process_action_inv (g : Game) (act : Option Action) (h : g.Inv) :
    (g.process_action act).1.Inv := by
  unfold Game.process_action
  split
  · exact h
  · dsimp only
    split
    · split
      · exact set_winner_inv _ _ h
      · exact h
    · split
      · exact h
      · split
        · split
          · exact h
          · rename_i a
            cases ha : g.apply_action a with
            | mk g1 e =>
              have hinv := apply_action_inv g a h
              rw [ha] at hinv
              cases e with
              | none => exact hinv
              | some e2 => exact hinv
        · exact h

/-- Dealing preserves the seat list (in order) and initializes every player
with zero bets in state `Playing`. -/
theorem deal_players_spec :
    ∀ (seats : List Seat) (deck : List Card) (ps : List Player) (rest : List Card),
      deal_players seats deck = some (ps, rest) →
      ps.map Player.seat = seats ∧
      ∀ p ∈ ps, p.round_bet = (⟨0⟩ : Currency) ∧ p.total_bet = (⟨0⟩ : Currency) ∧
        p.state = PlayerState.Playing := by
  intro seats
  induction seats with
  | nil =>
    intro deck ps rest h
    unfold deal_players at h
    injection h with h
    have h1 : ps = [] := (congrArg Prod.fst h).symm
    subst h1
    exact ⟨rfl, by simp⟩
  | cons s seats ih =>
    intro deck ps rest h
    cases deck with
    | nil => exact Option.noConfusion h
    | cons c1 d1 =>
      cases d1 with
      | nil => exact Option.noConfusion h
      | cons c2 d2 =>
        unfold deal_players at h
        cases hrec : deal_players seats d2 with
        | none =>
          rw [hrec] at h
          exact Option.noConfusion h
        | some pr =>
          obtain ⟨ps2, rest2⟩ := pr
          rw [hrec] at h
          dsimp only at h
          injection h with h
          have h1 : ps = Player.new [c1, c2] s :: ps2 := (congrArg Prod.fst h).symm
          subst h1
          obtain ⟨ihm, ihb⟩ := ih d2 ps2 rest2 hrec
          constructor
          · dsimp only [List.map]
            rw [ihm]
            rfl
          · intro p hp
            rcases List.mem_cons.mp hp with heq | hp2
            · rw [heq]
              exact ⟨rfl, rfl, rfl⟩
            · exact ihb p hp2

/-- With at least two players and a valid small-blind index, the two blind
positions differ. -/
theorem sb_ne_bb (g : Game) (h2 : 2 ≤ g.players.length)
    (hsb : g.small_blind_position < g.players.length) :
    g.small_blind_position ≠ g.big_blind_position := by
  unfold Game.small_blind_position Game.big_blind_position at *
  by_cases hn : g.players.length = 2
  · rw [if_pos hn] at hsb ⊢
    rw [if_pos hn, hn] at *
    omega
  · rw [if_neg hn] at hsb ⊢
    rw [if_neg hn]
    intro hmod
    have hdvd : g.players.length ∣ (g.dealer + 2) - (g.dealer + 1) :=
      (Nat.modEq_iff_dvd' (by omega)).mp hmod
    have := Nat.le_of_dvd (by omega) hdvd
    omega

/-- The exact shape of a successful `post_blinds`: both blind seats exist,
the positions differ, and the player list is the original with the
small-blind seat debited `small_blind` into its round bet and the big-blind
seat debited `small_blind` while its round bet grows by `big_blind`. -/
theorem post_blinds_ok_spec (g g1 : Game) (h2 : 2 ≤ g.players.length)
    (hok : g.post_blinds = (g1, none)) :
    ∃ sbp bbp,
      g.players.get? g.small_blind_position = some sbp ∧
      g.players.get? g.big_blind_position = some bbp ∧
      g.small_blind_position ≠ g.big_blind_position ∧
      (g.players.set g.small_blind_position
          ({ sbp with seat := { sbp.seat with currency := sbp.seat.currency - g.small_blind },
                      round_bet := sbp.round_bet + g.small_blind })).get?
          g.big_blind_position = some bbp ∧
      g1.players =
        (g.players.set g.small_blind_position
          ({ sbp with seat := { sbp.seat with currency := sbp.seat.currency - g.small_blind },
                      round_bet := sbp.round_bet + g.small_blind })).set g.big_blind_position
          ({ bbp with seat := { bbp.seat with currency := bbp.seat.currency - g.small_blind },
                      round_bet := bbp.round_bet + g.big_blind }) ∧
      g1.small_blind = g.small_blind ∧ g1.big_blind = g.big_blind := by
  unfold Game.post_blinds at hok
  dsimp only at hok
  cases hsb : g.players.get? g.small_blind_position with
  | none =>
    rw [hsb] at hok
    exact Option.noConfusion (congrArg Prod.snd hok)
  | some sbp =>
    rw [hsb] at hok
    dsimp only at hok
    have hsblt : g.small_blind_position < g.players.length := by
      rw [List.get?_eq_getElem?] at hsb
      exact (List.getElem?_eq_some.mp hsb).1
    have hne := sb_ne_bb g h2 hsblt
    rw [List.get?_eq_getElem?, List.getElem?_set_ne hne, ← List.get?_eq_getElem?] at hok
    cases hbb : g.players.get? g.big_blind_position with
    | none =>
      rw [hbb] at hok
      exact Option.noConfusion (congrArg Prod.snd hok)
    | some bbp =>
      rw [hbb] at hok
      dsimp only at hok
      have h1 : _ = g1 := congrArg Prod.fst hok
      refine ⟨sbp, bbp, rfl, rfl, hne, ?_, ?_, ?_, ?_⟩
      · rw [List.get?_eq_getElem?, List.getElem?_set_ne hne, ← List.get?_eq_getElem?]
        exact hbb
      · rw [← h1]
      · rw [← h1]
      · rw [← h1]

theorem sum_map_set {α : Type} (f : α → Int) :
    ∀ (l : List α) (i : Nat) (p q : α), l.get? i = some p →
      ((l.set i q).map f).sum = (l.map f).sum - f p + f q := by
  intro l
  induction l with
  | nil =>
    intro i p q h
    exact Option.noConfusion h
  | cons a as ih =>
    intro i p q h
    cases i with
    | zero =>
      injection h with h
      subst h
      simp only [List.set, List.map, List.sum_cons]
      ring
    | succ n =>
      simp only [List.set, List.map, List.sum_cons]
      rw [ih n p q h]
      ring

/-- Totals after a successful build: dealing leaves the seat balances and
then blind posting debits `2 * 0,50` in total (the big-blind seat is debited
the small blind, betting.rs line 34), while the round bets add up to
`0,50 + 1,00`, the derived pot. -/
theorem build_with_deck_sums (deck : List Card) (seats : List Seat) (d : Nat) (g : Game)
    (h : Game.build_with_deck deck seats d = .ok g) :
    (g.players.map (fun p => p.seat.currency.val)).sum
        = (seats.map (fun s => s.currency.val)).sum - 100 ∧
    g.pot.val = 150 ∧
    2 ≤ g.players.length ∧
    g.players.length = seats.length := by
  unfold Game.build_with_deck at h
  split at h
  · exact Except.noConfusion h
  · split at h
    · exact Except.noConfusion h
    · rename_i hlen hdeck
      cases hdeal : deal_players seats deck with
      | none =>
        rw [hdeal] at h
        exact Except.noConfusion h
      | some pr =>
        obtain ⟨ps, deckRest⟩ := pr
        rw [hdeal] at h
        dsimp only at h
        obtain ⟨hmap, hzero⟩ := deal_players_spec seats deck ps deckRest hdeal
        have hlen2 : ps.length = seats.length := by
          rw [← hmap, List.length_map]
        have hps2 : 2 ≤ ps.length := by omega
        split at h
        · rename_i g1 hpb
          injection h with h
          subst h
          obtain ⟨sbp, bbp, hsb, hbb, hne, hbbset, hplayers, hsbeq, hbbeq⟩ :=
            post_blinds_ok_spec _ g1 hps2 hpb
          have hsbm := mem_of_get?_eq _ _ _ hsb
          have hbbm := mem_of_get?_eq _ _ _ hbb
          have hseats : (ps.map (fun p => p.seat.currency.val)).sum
              = (seats.map (fun s => s.currency.val)).sum := by
            rw [← hmap, List.map_map]
            rfl
          refine ⟨?_, ?_, ?_, ?_⟩
          · rw [hplayers]
            rw [sum_map_set (fun p => p.seat.currency.val) _ _ bbp _ hbbset]
            rw [sum_map_set (fun p => p.seat.currency.val) _ _ sbp _ hsb]
            dsimp only
            rw [hseats]
            rw [Currency.sub_val, Currency.sub_val]
            have c1 : (Currency.new 0 50).val = 50 := rfl
            rw [c1]
            ring
          · unfold Game.pot
            dsimp only
            rw [hplayers]
            rw [sum_map_set (fun p => p.total_bet.val + p.round_bet.val) _ _ bbp _ hbbset]
            rw [sum_map_set (fun p => p.total_bet.val + p.round_bet.val) _ _ sbp _ hsb]
            have hz : (ps.map (fun p => p.total_bet.val + p.round_bet.val)).sum = 0 := by
              apply List.sum_eq_zero
              intro x hx
              obtain ⟨p, hp, rfl⟩ := List.mem_map.mp hx
              obtain ⟨hr, ht, _⟩ := hzero p hp
              rw [hr, ht]
              rfl
            obtain ⟨hrs, hts, _⟩ := hzero sbp hsbm
            obtain ⟨hrb, htb, _⟩ := hzero bbp hbbm
            dsimp only
            rw [hz]
            rw [Currency.add_val, Currency.add_val, hrs, hts, hrb, htb]
            rfl
          · rw [hplayers]
            simp only [List.length_set]
            omega
          · rw [hplayers]
            simp only [List.length_set]
            omega
        · exact Except.noConfusion h

/-- A build over seats that can all cover the small blind yields a game
satisfying the engine invariant (in particular, all balances are
non-negative). -/
theorem build_with_deck_inv (deck : List Card) (seats : List Seat) (d : Nat) (g : Game)
    (hs : ∀ s ∈ seats, 50 ≤ s.currency.val)
    (h : Game.build_with_deck deck seats d = .ok g) : g.Inv := by
  unfold Game.build_with_deck at h
  split at h
  · exact Except.noConfusion h
  · split at h
    · exact Except.noConfusion h
    · rename_i hlen hdeck
      cases hdeal : deal_players seats deck with
      | none =>
        rw [hdeal] at h
        exact Except.noConfusion h
      | some pr =>
        obtain ⟨ps, deckRest⟩ := pr
        rw [hdeal] at h
        dsimp only at h
        obtain ⟨hmap, hzero⟩ := deal_players_spec seats deck ps deckRest hdeal
        have hlen2 : ps.length = seats.length := by
          rw [← hmap, List.length_map]
        have hps2 : 2 ≤ ps.length := by omega
        split at h
        · rename_i g1 hpb
          injection h with h
          subst h
          obtain ⟨sbp, bbp, hsb, hbb, hne, hbbset, hplayers, hsbeq, hbbeq⟩ :=
            post_blinds_ok_spec _ g1 hps2 hpb
          dsimp only at hsb hbb hplayers hsbeq hbbeq
          have hbal : ∀ p ∈ ps, 50 ≤ p.seat.currency.val := by
            intro p hp
            apply hs
            rw [← hmap]
            exact List.mem_map_of_mem Player.seat hp
          have hbase : ∀ p ∈ ps, 0 ≤ p.seat.currency.val ∧ 0 ≤ p.round_bet.val ∧
              0 ≤ p.total_bet.val := by
            intro p hp
            obtain ⟨hr, ht, _⟩ := hzero p hp
            have := hbal p hp
            rw [hr, ht]
            refine ⟨by omega, le_refl _, le_refl _⟩
          have hsbm := mem_of_get?_eq _ _ _ hsb
          have hbbm := mem_of_get?_eq _ _ _ hbb
          constructor
          · rw [hplayers]
            refine forall_mem_set _ _ _ (forall_mem_set _ _ _ hbase ⟨?_, ?_, ?_⟩) ⟨?_, ?_, ?_⟩
            · show 0 ≤ (sbp.seat.currency - Currency.new 0 50).val
              rw [Currency.sub_val]
              have := hbal sbp hsbm
              have c1 : (Currency.new 0 50).val = 50 := rfl
              omega
            · show 0 ≤ (sbp.round_bet + Currency.new 0 50).val
              rw [Currency.add_val, (hzero sbp hsbm).1]
              decide
            · show 0 ≤ sbp.total_bet.val
              rw [(hzero sbp hsbm).2.1]
            · show 0 ≤ (bbp.seat.currency - Currency.new 0 50).val
              rw [Currency.sub_val]
              have := hbal bbp hbbm
              have c1 : (Currency.new 0 50).val = 50 := rfl
              omega
            · show 0 ≤ (bbp.round_bet + Currency.new 1 0).val
              rw [Currency.add_val, (hzero bbp hbbm).1]
              decide
            · show 0 ≤ bbp.total_bet.val
              rw [(hzero bbp hbbm).2.1]
          · rw [hbbeq]
            decide
        · exact Except.noConfusion h

/-- C2 (amended): the betting engine never drives a balance negative on its
own — `process_action` (fold/call/raise/all-in application, last-player
payout) preserves the non-negativity invariant in every case, success or
rejection — but blind posting during construction debits the two blind seats
unconditionally, so a committed build preserves non-negativity exactly when
every seat can cover the 0,50 actually debited (see the counterexample for a
build that commits negative balances). -/
theorem c2_balances_nonneg :
    (∀ (g : Game) (act : Option Action), g.Inv → (g.process_action act).1.Inv) ∧
    (∀ (deck : List Card) (seats : List Seat) (d : Nat) (g : Game),
       (∀ s ∈ seats, 50 ≤ s.currency.val) →
       Game.build_with_deck deck seats d = .ok g → g.Inv) :=
  ⟨fun g act h => process_action_inv g act h,
   fun deck seats d g hs h => build_with_deck_inv deck seats d g hs h⟩

theorem c2_witness :
    game2p.Inv ∧ (game2p.process_action (some Action.Fold)).1.Inv :=
  ⟨c2_balances_nonneg.2 deck52 seats2 0 game2p (by decide) rfl,
   c2_balances_nonneg.1 game2p (some Action.Fold)
     (by unfold Game.Inv; decide)⟩

/-- C2 counterexample: `Game::buid_with_seed` over two seats holding 0,00
commits (returns `Ok`) with both blind seats at -0,50 — the claim's
non-negativity after every committed operation fails at construction. -/
theorem c2_counterexample :
    (Game.build_with_deck deck52 [(⟨⟨0⟩⟩ : Seat), ⟨⟨0⟩⟩] 0).toOption.map
      (fun g => g.players.map (fun p => p.seat.currency.val)) = some [-50, -50] ∧
    ¬ (0 : Int) ≤ -50 := by
  decide

/-- C10: `LobbyBuilder::build` first builds a dummy game — whose blind
posting debits the shared seat balances — and then `start_new_game` discards
it and builds the live game, posting blinds again.  Each build debits 1,00 in
total (0,50 at each blind position, by the betting.rs line 34 slip), so after
a successful `build()` the seats have lost 2,00 while the only live game
records a pot of 1,50: the dummy game's debits persist in the seat balances
without appearing in any live game state. -/
theorem c10_dummy_game_debits (deck1 deck2 : List Card) (seats : List Seat) (l : Lobby)
    (h : lobby_build deck1 deck2 seats = .ok l) :
    sum_seat_balances seats - sum_seat_balances l.players = 200 ∧
    l.game.pot.val = 150 ∧
    l.game.pot.val < sum_seat_balances seats - sum_seat_balances l.players := by
  unfold lobby_build at h
  cases hb1 : Game.build_with_deck deck1 seats 0 with
  | error e =>
    rw [hb1] at h
    exact Except.noConfusion h
  | ok dummy =>
    rw [hb1] at h
    dsimp only at h
    unfold Lobby.start_new_game at h
    dsimp only at h
    split at h
    · exact Except.noConfusion h
    · rename_i game2 hb2
      injection h with h
      subst h
      obtain ⟨S1a, S1b, S1c, S1d⟩ := build_with_deck_sums deck1 seats 0 dummy hb1
      obtain ⟨S2a, S2b, S2c, S2d⟩ := build_with_deck_sums _ _ _ _ hb2
      have t2 : ((dummy.players.map (fun p => p.seat)).map (fun s => s.currency.val)).sum
          = (dummy.players.map (fun p => p.seat.currency.val)).sum := by
        rw [List.map_map]
        rfl
      rw [t2] at S2a
      unfold sum_seat_balances
      dsimp only
      have t3 : ((game2.players.map (fun p => p.seat)).map (fun s => s.currency.val)).sum
          = (game2.players.map (fun p => p.seat.currency.val)).sum := by
        rw [List.map_map]
        rfl
      rw [t3]
      refine ⟨by omega, S2b, by omega⟩

theorem c10_witness :
    lobby_build deck52 deck52 seats2 = .ok lobby2p ∧
    (sum_seat_balances seats2 - sum_seat_balances lobby2p.players = 200 ∧
     lobby2p.game.pot.val = 150 ∧
     lobby2p.game.pot.val < sum_seat_balances seats2 - sum_seat_balances lobby2p.players) :=
  ⟨rfl, c10_dummy_game_debits deck52 deck52 seats2 lobby2p rfl⟩

end Poks
